import Mathlib

/-!
Shallow embedding of the Mineral window-manager core
(`src/mineral/window_manager.py` and `src/mineral/window.py`).

Windows are identified by their concrete class (`WindowType`, carrying the
class-level `window_name` attribute); a loaded window is an instance
(`WindowInst`) remembering its class.  The manager state mirrors the fields
of `WindowManager.__init__`: the `_windows` dict (modelled as an
insertion-ordered association list with unique keys, as a Python dict), the
`_current_window` / `_last_window` optional references, and whether each of
the three global hooks has been assigned.  Hook invocations are modelled as
an emitted event trace (an instrumented hook recorder): every operation
returns the mutated state, the events fired, and an `Except` carrying the
raised error, since in Python an exception propagates while mutations
performed so far persist on the object.
-/

namespace Mineral

/-- A concrete `Window` subclass: its identity and its class-level
`window_name` attribute (set by `__init_subclass__`). -/
structure WindowType where
  id : Nat
  window_name : String
deriving DecidableEq, Repr

/-- A `Window` instance as stored in `WindowManager._windows`; it remembers
its class (`__class__`), which `unload_window` returns. -/
structure WindowInst where
  cls : WindowType
deriving DecidableEq, Repr

/-- An argument to `load_windows`: a candidate class together with whether
`issubclass(candidate, Window)` holds. -/
structure LoadCandidate where
  isWindowSubclass : Bool
  cls : WindowType
deriving DecidableEq, Repr

/-- A hook invocation, recorded with the exact arguments the source passes. -/
inductive Event where
  | globalLeave (last : Option WindowInst) (cur : WindowInst)
  | windowLeave (w : WindowInst) (next : WindowInst)
  | globalEnter (cur : WindowInst) (last : Option WindowInst)
  | windowEnter (w : WindowInst) (last : Option WindowInst)
  | globalSetup (w : WindowInst)
  | windowSetup (w : WindowInst)
deriving DecidableEq, Repr

/-- The errors the embedded operations raise.  `WindowError` and
`WindowLoadError` carry the `last_window=` keyword the source attaches;
`TypeError` is raised by the global-hook setters and `KeyError` by a failed
dict subscript. -/
inductive Err where
  | windowError (last_window : Option WindowInst)
  | windowLoadError (last_window : Option WindowInst)
  | typeError
  | keyError
deriving DecidableEq, Repr

/-! ### The `_windows` dict, as an association list with Python-dict update -/

/-- Dict lookup (`d[k]` / `d.get(k)`). -/
def lookupW : List (String × WindowInst) → String → Option WindowInst
  | [], _ => none
  | (k, v) :: rest, n => if k = n then some v else lookupW rest n

/-- Dict membership (`k in d`). -/
def containsW (ws : List (String × WindowInst)) (n : String) : Bool :=
  (lookupW ws n).isSome

/-- Dict assignment `d[k] = v`: replaces in place when the key exists
(keeping insertion order), appends otherwise. -/
def insertW : List (String × WindowInst) → String → WindowInst →
    List (String × WindowInst)
  | [], n, v => [(n, v)]
  | (k, w) :: rest, n, v =>
      if k = n then (k, v) :: rest else (k, w) :: insertW rest n v

/-- Dict deletion `del d[k]`. -/
def eraseW (ws : List (String × WindowInst)) (n : String) :
    List (String × WindowInst) :=
  ws.filter (fun kv => kv.1 ≠ n)

/-! ### Manager state and operation results -/

/-- The mutable fields of `WindowManager` relevant to the registry and the
transition machine.  The three `hasGlobal…` flags record whether the
corresponding optional global hook is assigned (`None` ↦ `false`). -/
structure WMState where
  windows : List (String × WindowInst)
  current_window : Option WindowInst
  last_window : Option WindowInst
  hasGlobalOnSetup : Bool
  hasGlobalOnEnter : Bool
  hasGlobalOnLeave : Bool
deriving DecidableEq, Repr

/-- The state right after `WindowManager.__init__` (no hooks assigned yet;
they are installed later through the validating setters). -/
def initState : WMState :=
  { windows := []
    current_window := none
    last_window := none
    hasGlobalOnSetup := false
    hasGlobalOnEnter := false
    hasGlobalOnLeave := false }

/-- Outcome of one manager operation: the state after it returns or raises,
the hook events fired (in order), and the returned value or raised error. -/
structure Res (α : Type) where
  state : WMState
  events : List Event
  result : Except Err α
deriving Repr

instance {α : Type} [DecidableEq α] : DecidableEq (Except Err α) := fun a b =>
  match a, b with
  | .ok x, .ok y =>
      if h : x = y then .isTrue (by rw [h]) else .isFalse (by simp [h])
  | .ok _, .error _ => .isFalse (by simp)
  | .error _, .ok _ => .isFalse (by simp)
  | .error e, .error f =>
      if h : e = f then .isTrue (by rw [h]) else .isFalse (by simp [h])

instance {α : Type} [DecidableEq α] : DecidableEq (Res α) := by
  intro a b
  cases a; cases b
  exact decidable_of_iff _ (Iff.of_eq (Res.mk.injEq _ _ _ _ _ _)).symm

/-! ### `WindowManager.change_window` -/

/-- `WindowManager.change_window(window_name)`: raises `WindowError`
(carrying `last_window`) when the name is absent; otherwise sets
`last_window := current_window`, `current_window := windows[name]`, and then
fires, in source order, the global `on_leave` (if assigned), the old
window's `on_leave` (if there was one), the global `on_enter` (if assigned)
and the new window's `on_enter`. -/
def change_window (m : WMState) (name : String) : Res Unit :=
  match lookupW m.windows name with
  | none => ⟨m, [], .error (.windowError m.last_window)⟩
  | some w =>
      let last := m.current_window
      let m' := { m with last_window := last, current_window := some w }
      let evs :=
        (if m.hasGlobalOnLeave then [Event.globalLeave last w] else [])
          ++ (match last with
              | some lw => [Event.windowLeave lw w]
              | none => [])
          ++ (if m.hasGlobalOnEnter then [Event.globalEnter w last] else [])
          ++ [Event.windowEnter w last]
      ⟨m', evs, .ok ()⟩

/-! ### `WindowManager.load_windows` / `unload_window` / `reload_window` -/

/-- One iteration of the `load_windows` loop body for a single candidate:
the `issubclass` check, the duplicate check (skipped under `force`), then
instantiation, storage under the class's `window_name`, the global
`on_setup` (if assigned) and the instance's `on_setup`. -/
def load_one (m : WMState) (force : Bool) (c : LoadCandidate) : Res Unit :=
  if !c.isWindowSubclass then
    ⟨m, [], .error (.windowError m.last_window)⟩
  else if !force && containsW m.windows c.cls.window_name then
    ⟨m, [], .error (.windowLoadError m.last_window)⟩
  else
    let inst : WindowInst := ⟨c.cls⟩
    let m' := { m with windows := insertW m.windows c.cls.window_name inst }
    ⟨m', (if m.hasGlobalOnSetup then [Event.globalSetup inst] else [])
        ++ [Event.windowSetup inst], .ok ()⟩

/-- `WindowManager.load_windows(*windows, force=...)`: iterates the
candidates; an error raised mid-loop propagates while the earlier
iterations' mutations persist. -/
def load_windows (m : WMState) (cands : List LoadCandidate) (force : Bool) :
    Res Unit :=
  match cands with
  | [] => ⟨m, [], .ok ()⟩
  | c :: rest =>
      let r := load_one m force c
      match r.result with
      | .error e => ⟨r.state, r.events, .error e⟩
      | .ok _ =>
          let r' := load_windows r.state rest force
          ⟨r'.state, r.events ++ r'.events, r'.result⟩

/-- `WindowManager.unload_window(window_name, force=...)`: raises
`WindowLoadError` when the name is absent; raises `WindowError` when, without
`force`, the name equals the current window's `window_name`; otherwise
deletes the entry and returns its class. -/
def unload_window (m : WMState) (name : String) (force : Bool) :
    Res WindowType :=
  match lookupW m.windows name with
  | none => ⟨m, [], .error (.windowLoadError m.last_window)⟩
  | some inst =>
      if !force
          && (match m.current_window with
              | some cw => name = cw.cls.window_name
              | none => false) then
        ⟨m, [], .error (.windowError m.last_window)⟩
      else
        ⟨{ m with windows := eraseW m.windows name }, [], .ok inst.cls⟩

/-- `WindowManager.reload_window(window_name, force=...)`: calls
`unload_window`, then `load_windows` on the returned class with the same
`force` flag, then returns `self._windows[window_name]` (a `KeyError` if it
were absent).  The class re-passed to `load_windows` is a `Window` subclass
because only instances of checked subclasses ever enter the registry. -/
def reload_window (m : WMState) (name : String) (force : Bool) :
    Res WindowInst :=
  let r1 := unload_window m name force
  match r1.result with
  | .error e => ⟨r1.state, r1.events, .error e⟩
  | .ok cls =>
      let r2 := load_windows r1.state [⟨true, cls⟩] force
      match r2.result with
      | .error e => ⟨r2.state, r1.events ++ r2.events, .error e⟩
      | .ok _ =>
          match lookupW r2.state.windows name with
          | some w => ⟨r2.state, r1.events ++ r2.events, .ok w⟩
          | none => ⟨r2.state, r1.events ++ r2.events, .error .keyError⟩

/-! ### Global hook validation (`_get_kw_args` / `_get_pos_args` / setters) -/

/-- `inspect.Parameter.kind` values: members of the `IntEnum`
`inspect._ParameterKind`. -/
inductive ParamKind where
  | POSITIONAL_ONLY
  | POSITIONAL_OR_KEYWORD
  | VAR_POSITIONAL
  | KEYWORD_ONLY
  | VAR_KEYWORD
deriving DecidableEq, Repr

/-- A callable's signature: the list of its parameters' kinds, in order. -/
abbrev Signature := List ParamKind

/-- A Python value appearing in the `param.kind in _KW_CONSIDER` membership
test: either an `inspect._ParameterKind` enum member or a `str`.  Python
`==` between an enum member and a string is `False` (both sides return
`NotImplemented` and the fallback identity test fails), which is exactly
constructor disagreement here. -/
inductive PyVal where
  | kind (k : ParamKind)
  | str (s : String)
deriving DecidableEq, Repr

/-- `_KW_CONSIDER`, as the source writes it: a tuple of *strings*
`("VAR_KEYWORD", "KEYWORD_ONLY")`, not of enum members. -/
def _KW_CONSIDER : List PyVal := [.str "VAR_KEYWORD", .str "KEYWORD_ONLY"]

def _GLOBAL_ON_SETUP_ARGS : Nat := 1
def _GLOBAL_ON_ENTER_ARGS : Nat := 2
def _GLOBAL_ON_LEAVE_ARGS : Nat := 2

/-- `WindowManager._get_kw_args`: counts parameters whose `kind` (an enum
member) is an element of the string tuple `_KW_CONSIDER`.  An enum member
never equals a string, so this count is 0 for every signature. -/
def _get_kw_args (sig : Signature) : Nat :=
  (sig.filter (fun p => decide (PyVal.kind p ∈ _KW_CONSIDER))).length

/-- `WindowManager._get_pos_args`: counts the parameters whose `kind` is not
in the string tuple — that is, all of them. -/
def _get_pos_args (sig : Signature) : Nat :=
  (sig.filter (fun p => !decide (PyVal.kind p ∈ _KW_CONSIDER))).length

/-- The shared shape check of the three global-hook setters:
`len(signature.parameters) != expected or kw_args != 0` raises `TypeError`. -/
def hookShapeBad (sig : Signature) (expected : Nat) : Bool :=
  sig.length != expected || _get_kw_args sig != 0

/-- The `global_on_setup` setter: validates against arity 1, then installs. -/
def set_global_on_setup (m : WMState) (sig : Signature) :
    WMState × Except Err Unit :=
  if hookShapeBad sig _GLOBAL_ON_SETUP_ARGS then (m, .error .typeError)
  else ({ m with hasGlobalOnSetup := true }, .ok ())

/-- The `global_on_enter` setter: validates against arity 2, then installs. -/
def set_global_on_enter (m : WMState) (sig : Signature) :
    WMState × Except Err Unit :=
  if hookShapeBad sig _GLOBAL_ON_ENTER_ARGS then (m, .error .typeError)
  else ({ m with hasGlobalOnEnter := true }, .ok ())

/-- The `global_on_leave` setter: validates against arity 2, then installs. -/
def set_global_on_leave (m : WMState) (sig : Signature) :
    WMState × Except Err Unit :=
  if hookShapeBad sig _GLOBAL_ON_LEAVE_ARGS then (m, .error .typeError)
  else ({ m with hasGlobalOnLeave := true }, .ok ())

/-! ### Operation traces: every reachable manager state -/

/-- One public manager operation, as a host application may issue it. -/
inductive Op where
  | load (cands : List LoadCandidate) (force : Bool)
  | unload (name : String) (force : Bool)
  | reload (name : String) (force : Bool)
  | change (name : String)
  | setSetup (sig : Signature)
  | setEnter (sig : Signature)
  | setLeave (sig : Signature)
deriving DecidableEq, Repr

/-- Run one operation; a raised error is caught by the host, so only the
mutated state and the fired events remain. -/
def runOp (m : WMState) : Op → WMState × List Event
  | .load cands force =>
      let r := load_windows m cands force
      (r.state, r.events)
  | .unload name force =>
      let r := unload_window m name force
      (r.state, r.events)
  | .reload name force =>
      let r := reload_window m name force
      (r.state, r.events)
  | .change name =>
      let r := change_window m name
      (r.state, r.events)
  | .setSetup sig => ((set_global_on_setup m sig).1, [])
  | .setEnter sig => ((set_global_on_enter m sig).1, [])
  | .setLeave sig => ((set_global_on_leave m sig).1, [])

/-- Run a sequence of operations from a state, accumulating the events. -/
def runOps (m : WMState) : List Op → WMState × List Event
  | [] => (m, [])
  | op :: rest =>
      let s1 := runOp m op
      let s2 := runOps s1.1 rest
      (s2.1, s1.2 ++ s2.2)

/-! ### `Window.states` — class-level attribute semantics (`window.py`) -/

/-- A `Window` instance for the purpose of attribute lookup: `ownStates` is
the instance `__dict__` entry for `states`, present only if some code
assigned `self.states = …`.  Neither `Window` nor its methods ever do, so
instances are created with `ownStates = none`. -/
structure PyWindowObj where
  ownStates : Option (List Nat)
deriving DecidableEq, Repr

/-- Instance creation: `Window.__init__` assigns no `states` attribute. -/
def mkWindowObj : PyWindowObj := ⟨none⟩

/-- Python attribute lookup `self.states`: the instance `__dict__` first,
falling back to the class attribute `Window.states`. -/
def statesAttr (w : PyWindowObj) (clsStates : List Nat) : List Nat :=
  w.ownStates.getD clsStates

/-- `Window.add_state(self, state)`: `Window.states.append(state)` — mutates
the class-level list, leaves the calling instance untouched. -/
def add_state (self : PyWindowObj) (clsStates : List Nat) (s : Nat) :
    PyWindowObj × List Nat :=
  (self, clsStates ++ [s])

/-- `Window.remove_state(self, state)`: `Window.states.remove(state)` —
drops the first occurrence from the class-level list (`ValueError`, here
`none`, when absent), leaving the calling instance untouched. -/
def remove_state (self : PyWindowObj) (clsStates : List Nat) (s : Nat) :
    Option (PyWindowObj × List Nat) :=
  if s ∈ clsStates then some (self, clsStates.erase s) else none

/-! ### Dictionary lemmas -/

theorem lookupW_insertW (ws : List (String × WindowInst)) (n k : String)
    (v : WindowInst) :
    lookupW (insertW ws n v) k = if k = n then some v else lookupW ws k := by
  induction ws with
  | nil =>
      simp only [insertW, lookupW]
      by_cases h : k = n
      · subst h; simp
      · rw [if_neg (fun hh => h hh.symm), if_neg h]
  | cons kv rest ih =>
      obtain ⟨k1, v1⟩ := kv
      by_cases h1 : k1 = n
      · subst h1
        simp only [insertW, if_pos rfl]
        by_cases h2 : k = k1
        · subst h2; simp [lookupW]
        · simp only [lookupW]
          rw [if_neg (fun hh => h2 hh.symm), if_neg h2,
            if_neg (fun hh => h2 hh.symm)]
  -- k1 ≠ n: the new binding is pushed past the head entry
      · simp only [insertW, if_neg h1]
        by_cases h2 : k1 = k
        · subst h2
          rw [if_neg h1]
          simp [lookupW]
        · simp only [lookupW]
          rw [if_neg h2, ih, if_neg h2]

theorem lookupW_eraseW (ws : List (String × WindowInst)) (n k : String) :
    lookupW (eraseW ws n) k = if k = n then none else lookupW ws k := by
  induction ws with
  | nil =>
      simp [eraseW, lookupW]
  | cons kv rest ih =>
      obtain ⟨k1, v1⟩ := kv
      by_cases h1 : k1 = n
      · subst h1
        rw [show eraseW ((k1, v1) :: rest) k1 = eraseW rest k1 by
          simp [eraseW]]
        rw [ih]
        by_cases h2 : k = k1
        · simp [h2]
        · simp only [lookupW]
          rw [if_neg h2, if_neg h2, if_neg (fun hh => h2 hh.symm)]
      · rw [show eraseW ((k1, v1) :: rest) n = (k1, v1) :: eraseW rest n by
          simp [eraseW, h1]]
        simp only [lookupW]
        by_cases h2 : k1 = k
        · subst h2
          rw [if_pos rfl, if_pos rfl, if_neg (fun hh => h1 hh)]
        · rw [if_neg h2, ih, if_neg h2]

theorem containsW_insertW (ws : List (String × WindowInst)) (n k : String)
    (v : WindowInst) :
    containsW (insertW ws n v) k = (decide (k = n) || containsW ws k) := by
  by_cases h : k = n <;> simp [containsW, lookupW_insertW, h]

theorem containsW_eraseW (ws : List (String × WindowInst)) (n k : String) :
    containsW (eraseW ws n) k = (!decide (k = n) && containsW ws k) := by
  by_cases h : k = n <;> simp [containsW, lookupW_eraseW, h]

/-! ### Characterizations of the operations -/

theorem change_window_found (m : WMState) (name : String) (w : WindowInst)
    (h : lookupW m.windows name = some w) :
    change_window m name =
      ⟨{ m with last_window := m.current_window, current_window := some w },
        (if m.hasGlobalOnLeave
          then [Event.globalLeave m.current_window w] else [])
          ++ (match m.current_window with
              | some lw => [Event.windowLeave lw w]
              | none => [])
          ++ (if m.hasGlobalOnEnter
              then [Event.globalEnter w m.current_window] else [])
          ++ [Event.windowEnter w m.current_window],
        .ok ()⟩ := by
  unfold change_window
  rw [h]

theorem change_window_notfound (m : WMState) (name : String)
    (h : lookupW m.windows name = none) :
    change_window m name = ⟨m, [], .error (.windowError m.last_window)⟩ := by
  unfold change_window
  rw [h]

theorem load_one_success (m : WMState) (force : Bool) (c : LoadCandidate)
    (hsub : c.isWindowSubclass = true)
    (hnew : force = true ∨ containsW m.windows c.cls.window_name = false) :
    load_one m force c =
      ⟨{ m with windows := insertW m.windows c.cls.window_name ⟨c.cls⟩ },
        (if m.hasGlobalOnSetup then [Event.globalSetup ⟨c.cls⟩] else [])
          ++ [Event.windowSetup ⟨c.cls⟩],
        .ok ()⟩ := by
  unfold load_one
  rw [hsub]
  rcases hnew with hf | hc
  · subst hf; simp
  · simp [hc]

theorem load_windows_single (m : WMState) (force : Bool) (c : LoadCandidate)
    (hsub : c.isWindowSubclass = true)
    (hnew : force = true ∨ containsW m.windows c.cls.window_name = false) :
    load_windows m [c] force =
      ⟨{ m with windows := insertW m.windows c.cls.window_name ⟨c.cls⟩ },
        (if m.hasGlobalOnSetup then [Event.globalSetup ⟨c.cls⟩] else [])
          ++ [Event.windowSetup ⟨c.cls⟩],
        .ok ()⟩ := by
  unfold load_windows load_windows
  rw [load_one_success m force c hsub hnew]
  simp

theorem unload_window_notfound (m : WMState) (name : String) (force : Bool)
    (h : lookupW m.windows name = none) :
    unload_window m name force =
      ⟨m, [], .error (.windowLoadError m.last_window)⟩ := by
  unfold unload_window
  rw [h]

theorem unload_window_guard (m : WMState) (name : String) (inst cw : WindowInst)
    (h : lookupW m.windows name = some inst)
    (hcw : m.current_window = some cw) (hname : name = cw.cls.window_name) :
    unload_window m name false =
      ⟨m, [], .error (.windowError m.last_window)⟩ := by
  unfold unload_window
  rw [h, hcw]
  simp [hname]

theorem unload_window_success (m : WMState) (name : String) (force : Bool)
    (inst : WindowInst) (h : lookupW m.windows name = some inst)
    (hguard : force = true
      ∨ ∀ cw, m.current_window = some cw → name ≠ cw.cls.window_name) :
    unload_window m name force =
      ⟨{ m with windows := eraseW m.windows name }, [], .ok inst.cls⟩ := by
  unfold unload_window
  rw [h]
  rcases hguard with hf | hg
  · subst hf; simp
  · rcases hc : m.current_window with _ | cw
    · simp
    · simp [hg cw hc]

/-! ### Registry invariants and their preservation -/

/-- Every registry entry is keyed by its instance's class-level
`window_name` (load always stores under `window.window_name`). -/
def keysConsistent (m : WMState) : Prop :=
  ∀ k w, lookupW m.windows k = some w → w.cls.window_name = k

/-- A non-empty `current_window` refers to a name present in the registry. -/
def currentOk (m : WMState) : Prop :=
  ∀ w, m.current_window = some w →
    containsW m.windows w.cls.window_name = true

/-- The combined registry invariant. -/
def RegInv (m : WMState) : Prop := keysConsistent m ∧ currentOk m

theorem regInv_initState : RegInv initState := by
  constructor
  · intro k w hk
    simp [initState, lookupW] at hk
  · intro w hw
    simp [initState] at hw

theorem regInv_insert (m : WMState) (c : WindowType) (h : RegInv m) :
    RegInv { m with windows := insertW m.windows c.window_name ⟨c⟩ } := by
  obtain ⟨hk, hc⟩ := h
  constructor
  · intro k w hkw
    simp only [lookupW_insertW] at hkw
    by_cases hn : k = c.window_name
    · rw [if_pos hn] at hkw
      cases hkw
      exact hn.symm
    · rw [if_neg hn] at hkw
      exact hk k w hkw
  · intro w hw
    simp only at hw
    have := hc w hw
    simp only [containsW_insertW]
    simp [this]

theorem regInv_load_one (m : WMState) (force : Bool) (c : LoadCandidate)
    (h : RegInv m) : RegInv (load_one m force c).state := by
  unfold load_one
  split
  · exact h
  · split
    · exact h
    · exact regInv_insert m c.cls h

theorem regInv_load_windows (cands : List LoadCandidate) (m : WMState)
    (force : Bool) (h : RegInv m) :
    RegInv (load_windows m cands force).state := by
  induction cands generalizing m with
  | nil => exact h
  | cons c rest ih =>
      unfold load_windows
      have h1 := regInv_load_one m force c h
      rcases hr : (load_one m force c).result with e | u
      · simpa [hr] using h1
      · simpa [hr] using ih (load_one m force c).state h1

theorem keysConsistent_unload (m : WMState) (name : String) (force : Bool)
    (h : keysConsistent m) :
    keysConsistent (unload_window m name force).state := by
  unfold unload_window
  split
  · exact h
  · split
    · exact h
    · intro k w hkw
      simp only [lookupW_eraseW] at hkw
      by_cases hn : k = name
      · rw [if_pos hn] at hkw; cases hkw
      · rw [if_neg hn] at hkw
        exact h k w hkw

theorem currentOk_unload_safe (m : WMState) (name : String)
    (h : currentOk m) : currentOk (unload_window m name false).state := by
  unfold unload_window
  split
  · exact h
  · rename_i inst hinst
    split
    · exact h
    · rename_i hguard
      intro w hw
      simp only at hw
      have hmem := h w hw
      simp only [containsW_eraseW]
      rcases hc : m.current_window with _ | cw
      · rw [hc] at hw; cases hw
      · rw [hc] at hw
        cases hw
        simp only [hc, Bool.not_eq_true] at hguard
        have hne : ¬name = w.cls.window_name := by
          intro he
          simp [he] at hguard
        have hne2 : ¬w.cls.window_name = name := fun hh => hne hh.symm
        simp [hmem, hne2]

theorem reload_window_notfound (m : WMState) (name : String) (force : Bool)
    (h : lookupW m.windows name = none) :
    reload_window m name force =
      ⟨m, [], .error (.windowLoadError m.last_window)⟩ := by
  unfold reload_window
  rw [unload_window_notfound m name force h]

theorem reload_window_guard (m : WMState) (name : String)
    (inst cw : WindowInst) (h : lookupW m.windows name = some inst)
    (hcw : m.current_window = some cw) (hname : name = cw.cls.window_name) :
    reload_window m name false =
      ⟨m, [], .error (.windowError m.last_window)⟩ := by
  unfold reload_window
  rw [unload_window_guard m name inst cw h hcw hname]

theorem reload_window_success (m : WMState) (name : String) (force : Bool)
    (inst : WindowInst) (h : lookupW m.windows name = some inst)
    (hname : inst.cls.window_name = name)
    (hguard : force = true
      ∨ ∀ cw, m.current_window = some cw → name ≠ cw.cls.window_name) :
    reload_window m name force =
      ⟨{ m with
          windows := insertW (eraseW m.windows name) name ⟨inst.cls⟩ },
        (if m.hasGlobalOnSetup then [Event.globalSetup ⟨inst.cls⟩] else [])
          ++ [Event.windowSetup ⟨inst.cls⟩],
        .ok ⟨inst.cls⟩⟩ := by
  have hnew : containsW (eraseW m.windows name) inst.cls.window_name
      = false := by
    simp [containsW_eraseW, hname]
  unfold reload_window
  rw [unload_window_success m name force inst h hguard]
  dsimp only
  rw [load_windows_single { m with windows := eraseW m.windows name } force
    ⟨true, inst.cls⟩ rfl (Or.inr hnew)]
  dsimp only
  rw [hname, lookupW_insertW]
  simp

theorem regInv_reload (m : WMState) (name : String) (force : Bool)
    (h : RegInv m) : RegInv (reload_window m name force).state := by
  rcases hl : lookupW m.windows name with _ | inst
  · rw [reload_window_notfound m name force hl]
    exact h
  · have hname : inst.cls.window_name = name := h.1 name inst hl
    by_cases hguard : force = true
      ∨ ∀ cw, m.current_window = some cw → name ≠ cw.cls.window_name
    · rw [reload_window_success m name force inst hl hname hguard]
      constructor
      · intro k w hkw
        simp only [lookupW_insertW] at hkw
        by_cases hn : k = name
        · rw [if_pos hn] at hkw
          cases hkw
          rw [hname, hn]
        · rw [if_neg hn] at hkw
          simp only [lookupW_eraseW, if_neg hn] at hkw
          exact h.1 k w hkw
      · intro w hw
        simp only at hw
        have hmem := h.2 w hw
        simp only [containsW_insertW, containsW_eraseW]
        by_cases hn : w.cls.window_name = name
        · simp [hn]
        · simp [hn, hmem]
    · push_neg at hguard
      obtain ⟨hf, cw, hcw, hn⟩ := hguard
      have hf0 : force = false := by
        cases force
        · rfl
        · exact absurd rfl hf
      subst hf0
      rw [reload_window_guard m name inst cw hl hcw hn]
      exact h

theorem regInv_change (m : WMState) (name : String)
    (h : RegInv m) : RegInv (change_window m name).state := by
  rcases hl : lookupW m.windows name with _ | w
  · rw [change_window_notfound m name hl]
    exact h
  · rw [change_window_found m name w hl]
    constructor
    · exact h.1
    · intro w2 hw2
      simp only at hw2
      cases hw2
      have hname : w.cls.window_name = name := h.1 name w hl
      simp [containsW, hname, hl]

theorem regInv_set_setup (m : WMState) (sig : Signature) (h : RegInv m) :
    RegInv (set_global_on_setup m sig).1 := by
  unfold set_global_on_setup
  split
  · exact h
  · exact ⟨h.1, h.2⟩

theorem regInv_set_enter (m : WMState) (sig : Signature) (h : RegInv m) :
    RegInv (set_global_on_enter m sig).1 := by
  unfold set_global_on_enter
  split
  · exact h
  · exact ⟨h.1, h.2⟩

theorem regInv_set_leave (m : WMState) (sig : Signature) (h : RegInv m) :
    RegInv (set_global_on_leave m sig).1 := by
  unfold set_global_on_leave
  split
  · exact h
  · exact ⟨h.1, h.2⟩

/-- The operations whose direct calls never pass `force=true` to
`unload_window` (the one escape hatch that can orphan `current_window`). -/
def SafeOp : Op → Prop
  | .unload _ force => force = false
  | _ => True

theorem regInv_runOp (m : WMState) (op : Op) (hsafe : SafeOp op)
    (h : RegInv m) : RegInv (runOp m op).1 := by
  cases op with
  | load cands force => exact regInv_load_windows cands m force h
  | unload name force =>
      have hf : force = false := hsafe
      subst hf
      exact ⟨keysConsistent_unload m name false h.1,
        currentOk_unload_safe m name h.2⟩
  | reload name force => exact regInv_reload m name force h
  | change name => exact regInv_change m name h
  | setSetup sig => exact regInv_set_setup m sig h
  | setEnter sig => exact regInv_set_enter m sig h
  | setLeave sig => exact regInv_set_leave m sig h

theorem regInv_runOps (ops : List Op) (m : WMState)
    (hsafe : ∀ op ∈ ops, SafeOp op) (h : RegInv m) :
    RegInv (runOps m ops).1 := by
  induction ops generalizing m with
  | nil => exact h
  | cons op rest ih =>
      exact ih (runOp m op).1 (fun o ho => hsafe o (List.mem_cons_of_mem _ ho))
        (regInv_runOp m op (hsafe op (List.mem_cons_self op rest)) h)

/-! ### Key uniqueness (the registry is a dict) -/

/-- The registry never holds two entries under one name. -/
def keysNodup (m : WMState) : Prop := (m.windows.map Prod.fst).Nodup

theorem mem_keys_insertW (ws : List (String × WindowInst)) (n k : String)
    (v : WindowInst) (h : k ∈ (insertW ws n v).map Prod.fst) :
    k = n ∨ k ∈ ws.map Prod.fst := by
  induction ws with
  | nil => simp [insertW] at h; exact Or.inl h
  | cons kv rest ih =>
      obtain ⟨k1, v1⟩ := kv
      by_cases h1 : k1 = n
      · simp only [insertW, if_pos h1, List.map_cons, List.mem_cons] at h
        rcases h with h | h
        · exact Or.inr (by simp [h])
        · exact Or.inr (by simp [h])
      · simp only [insertW, if_neg h1, List.map_cons, List.mem_cons] at h
        rcases h with h | h
        · exact Or.inr (by simp [h])
        · rcases ih h with h2 | h2
          · exact Or.inl h2
          · exact Or.inr (by simp [h2])

theorem nodup_keys_insertW (ws : List (String × WindowInst)) (n : String)
    (v : WindowInst) (h : (ws.map Prod.fst).Nodup) :
    ((insertW ws n v).map Prod.fst).Nodup := by
  induction ws with
  | nil => simp [insertW]
  | cons kv rest ih =>
      obtain ⟨k1, v1⟩ := kv
      simp only [List.map_cons, List.nodup_cons] at h
      obtain ⟨hk1, hrest⟩ := h
      by_cases h1 : k1 = n
      · simp only [insertW, if_pos h1, List.map_cons, List.nodup_cons]
        exact ⟨hk1, hrest⟩
      · simp only [insertW, if_neg h1, List.map_cons, List.nodup_cons]
        refine ⟨?_, ih hrest⟩
        intro hmem
        rcases mem_keys_insertW rest n k1 v hmem with h2 | h2
        · exact h1 h2
        · exact hk1 h2

theorem nodup_keys_eraseW (ws : List (String × WindowInst)) (n : String)
    (h : (ws.map Prod.fst).Nodup) : ((eraseW ws n).map Prod.fst).Nodup :=
  ((List.filter_sublist ws).map Prod.fst).nodup h

theorem keysNodup_load_one (m : WMState) (force : Bool) (c : LoadCandidate)
    (h : keysNodup m) : keysNodup (load_one m force c).state := by
  unfold load_one
  split
  · exact h
  · split
    · exact h
    · exact nodup_keys_insertW m.windows c.cls.window_name ⟨c.cls⟩ h

theorem keysNodup_load_windows (cands : List LoadCandidate) (m : WMState)
    (force : Bool) (h : keysNodup m) :
    keysNodup (load_windows m cands force).state := by
  induction cands generalizing m with
  | nil => exact h
  | cons c rest ih =>
      unfold load_windows
      have h1 := keysNodup_load_one m force c h
      rcases hr : (load_one m force c).result with e | u
      · simpa [hr] using h1
      · simpa [hr] using ih (load_one m force c).state h1

/-! ### Enter events along a trace -/

/-- `windowEnter` events are emitted by successful `change_window` calls and
by nothing else. -/
def isWindowEnter : Event → Bool
  | .windowEnter _ _ => true
  | _ => false

/-- The "previous window" arguments passed to enter hooks (both the global
`on_enter` and the entered window's `on_enter`), in firing order. -/
def enterPrevs : List Event → List (Option WindowInst) :=
  List.filterMap fun e =>
    match e with
    | .globalEnter _ p => some p
    | .windowEnter _ p => some p
    | _ => none

theorem unload_window_current (m : WMState) (name : String) (force : Bool) :
    (unload_window m name force).state.current_window = m.current_window := by
  unfold unload_window
  split
  · rfl
  · split <;> rfl

theorem unload_window_events (m : WMState) (name : String) (force : Bool) :
    (unload_window m name force).events = [] := by
  unfold unload_window
  split
  · rfl
  · split <;> rfl

theorem load_one_current (m : WMState) (force : Bool) (c : LoadCandidate) :
    (load_one m force c).state.current_window = m.current_window := by
  unfold load_one
  split
  · rfl
  · split <;> rfl

theorem load_one_no_enter (m : WMState) (force : Bool) (c : LoadCandidate) :
    (load_one m force c).events.any isWindowEnter = false := by
  unfold load_one
  split
  · rfl
  · split
    · rfl
    · dsimp only
      split <;> simp [isWindowEnter]

theorem load_windows_current (cands : List LoadCandidate) (m : WMState)
    (force : Bool) :
    (load_windows m cands force).state.current_window = m.current_window := by
  induction cands generalizing m with
  | nil => rfl
  | cons c rest ih =>
      unfold load_windows
      rcases hr : (load_one m force c).result with e | u
      · simpa [hr] using load_one_current m force c
      · simp only [hr]
        rw [ih (load_one m force c).state, load_one_current m force c]

theorem load_windows_no_enter (cands : List LoadCandidate) (m : WMState)
    (force : Bool) :
    (load_windows m cands force).events.any isWindowEnter = false := by
  induction cands generalizing m with
  | nil => rfl
  | cons c rest ih =>
      unfold load_windows
      rcases hr : (load_one m force c).result with e | u
      · simpa [hr] using load_one_no_enter m force c
      · simp only [hr, List.any_append, Bool.or_eq_false_iff]
        exact ⟨load_one_no_enter m force c, ih (load_one m force c).state⟩

theorem reload_window_current (m : WMState) (name : String) (force : Bool) :
    (reload_window m name force).state.current_window = m.current_window := by
  unfold reload_window
  rcases hr1 : unload_window m name force with ⟨s1, e1, r1⟩
  have hs1 : s1.current_window = m.current_window := by
    have h := unload_window_current m name force
    rw [hr1] at h
    exact h
  cases r1 with
  | error e => simpa using hs1
  | ok cls =>
      dsimp only
      rcases hr2 : load_windows s1 [⟨true, cls⟩] force with ⟨s2, e2, r2⟩
      have hs2 : s2.current_window = s1.current_window := by
        have h := load_windows_current [⟨true, cls⟩] s1 force
        rw [hr2] at h
        exact h
      cases r2 with
      | error e => simpa using hs2.trans hs1
      | ok u =>
          dsimp only
          split <;> simpa using hs2.trans hs1

theorem reload_window_no_enter (m : WMState) (name : String) (force : Bool) :
    (reload_window m name force).events.any isWindowEnter = false := by
  unfold reload_window
  rcases hr1 : unload_window m name force with ⟨s1, e1, r1⟩
  have he1 : e1 = [] := by
    have h := unload_window_events m name force
    rw [hr1] at h
    exact h
  subst he1
  cases r1 with
  | error e => rfl
  | ok cls =>
      dsimp only
      rcases hr2 : load_windows s1 [⟨true, cls⟩] force with ⟨s2, e2, r2⟩
      have he2 : e2.any isWindowEnter = false := by
        have h := load_windows_no_enter [⟨true, cls⟩] s1 force
        rw [hr2] at h
        exact h
      cases r2 with
      | error e => simpa using he2
      | ok u =>
          dsimp only
          split <;> simpa using he2

theorem change_window_enter_sync (m : WMState) (name : String) :
    (change_window m name).state.current_window.isSome
      = (m.current_window.isSome
          || (change_window m name).events.any isWindowEnter) := by
  rcases hl : lookupW m.windows name with _ | w
  · rw [change_window_notfound m name hl]
    simp
  · rw [change_window_found m name w hl]
    simp [isWindowEnter, List.any_append]

theorem runOp_enter_sync (m : WMState) (op : Op) :
    (runOp m op).1.current_window.isSome
      = (m.current_window.isSome || (runOp m op).2.any isWindowEnter) := by
  cases op with
  | load cands force =>
      simp [runOp, load_windows_current cands m force,
        load_windows_no_enter cands m force]
  | unload name force =>
      simp [runOp, unload_window_current m name force,
        unload_window_events m name force]
  | reload name force =>
      simp [runOp, reload_window_current m name force,
        reload_window_no_enter m name force]
  | change name => simpa [runOp] using change_window_enter_sync m name
  | setSetup sig =>
      simp only [runOp]
      unfold set_global_on_setup
      split <;> simp
  | setEnter sig =>
      simp only [runOp]
      unfold set_global_on_enter
      split <;> simp
  | setLeave sig =>
      simp only [runOp]
      unfold set_global_on_leave
      split <;> simp

theorem runOps_enter_sync (ops : List Op) (m : WMState) :
    (runOps m ops).1.current_window.isSome
      = (m.current_window.isSome || (runOps m ops).2.any isWindowEnter) := by
  induction ops generalizing m with
  | nil => simp [runOps]
  | cons op rest ih =>
      unfold runOps
      dsimp only
      rw [List.any_append, ih (runOp m op).1, runOp_enter_sync m op,
        Bool.or_assoc]

theorem change_window_enterPrevs (m : WMState) (name : String)
    (w : WindowInst) (hl : lookupW m.windows name = some w) :
    enterPrevs (change_window m name).events
      = (if m.hasGlobalOnEnter then [m.current_window] else [])
          ++ [m.current_window] := by
  rw [change_window_found m name w hl]
  dsimp only
  by_cases hgl : m.hasGlobalOnLeave = true
    <;> by_cases hge : m.hasGlobalOnEnter = true
    <;> rcases hc : m.current_window with _ | cw
    <;> simp [hgl, hge, enterPrevs]

/-! ### The claims -/

theorem hookShapeBad_true_iff (sig : Signature) (e : Nat) :
    hookShapeBad sig e = true ↔ (_get_kw_args sig ≠ 0 ∨ sig.length ≠ e) := by
  simp [hookShapeBad, or_comm]

theorem hookShapeBad_false_iff (sig : Signature) (e : Nat) :
    hookShapeBad sig e = false ↔ (_get_kw_args sig = 0 ∧ sig.length = e) := by
  simp [hookShapeBad, and_comm]

/-- C1: in a state where windows A and B are loaded and A is current,
`change_window("B")` succeeds; it updates `last_window := A` and
`current_window := B` (the returned state), and fires exactly these hooks
in exactly this order: the global `on_leave` with `(A, B)` if assigned,
then `A.on_leave(B)`, then the global `on_enter` with `(B, A)` if assigned,
then `B.on_enter(A)` — each event's arguments being the already-updated
`last_window`/`current_window` pointers, so both pointers are updated before
the first hook fires. -/
theorem changeWindow_transition_order (m : WMState) (a b : String)
    (wa wb : WindowInst)
    (ha : lookupW m.windows a = some wa)
    (hb : lookupW m.windows b = some wb)
    (hcur : m.current_window = some wa) :
    change_window m b =
      ⟨{ m with last_window := some wa, current_window := some wb },
        (if m.hasGlobalOnLeave then [Event.globalLeave (some wa) wb] else [])
          ++ [Event.windowLeave wa wb]
          ++ (if m.hasGlobalOnEnter
              then [Event.globalEnter wb (some wa)] else [])
          ++ [Event.windowEnter wb (some wa)],
        .ok ()⟩ := by
  rw [change_window_found m b wb hb, hcur]

theorem changeWindow_transition_order_witness :
    change_window
        ⟨[("A", ⟨⟨0, "A"⟩⟩), ("B", ⟨⟨1, "B"⟩⟩)], some ⟨⟨0, "A"⟩⟩, none,
          false, true, true⟩ "B" =
      ⟨⟨[("A", ⟨⟨0, "A"⟩⟩), ("B", ⟨⟨1, "B"⟩⟩)], some ⟨⟨1, "B"⟩⟩,
          some ⟨⟨0, "A"⟩⟩, false, true, true⟩,
        [.globalLeave (some ⟨⟨0, "A"⟩⟩) ⟨⟨1, "B"⟩⟩,
          .windowLeave ⟨⟨0, "A"⟩⟩ ⟨⟨1, "B"⟩⟩,
          .globalEnter ⟨⟨1, "B"⟩⟩ (some ⟨⟨0, "A"⟩⟩),
          .windowEnter ⟨⟨1, "B"⟩⟩ (some ⟨⟨0, "A"⟩⟩)],
        .ok ()⟩ := by
  have h := changeWindow_transition_order
    ⟨[("A", ⟨⟨0, "A"⟩⟩), ("B", ⟨⟨1, "B"⟩⟩)], some ⟨⟨0, "A"⟩⟩, none,
      false, true, true⟩ "A" "B" ⟨⟨0, "A"⟩⟩ ⟨⟨1, "B"⟩⟩
    (by decide) (by decide) rfl
  simpa using h

/-- C2 as frozen is false: the claim quantifies over sequences that include
`force=true` calls, but after `load("A")`, `change("A")`,
`unload("A", force=true)` — a reachable sequence — `current_window` is still
window A while `"A"` is no longer a key of the registry. -/
theorem currentWindow_dangles_after_force_unload :
    (runOps initState
        [.load [⟨true, ⟨0, "A"⟩⟩] false, .change "A",
          .unload "A" true]).1.current_window = some ⟨⟨0, "A"⟩⟩
    ∧ containsW (runOps initState
        [.load [⟨true, ⟨0, "A"⟩⟩] false, .change "A",
          .unload "A" true]).1.windows "A" = false := by
  decide

/-- C2 (amended): for every state reachable by any sequence of
`load_windows`, `unload_window`, `reload_window` and `change_window` calls
in which `unload_window` is never called with `force=true` (`load_windows`
and `reload_window` may still use any `force` flag), if `current_window`
is non-empty then its window name is a key of the `windows` mapping. -/
theorem current_window_name_registered (ops : List Op)
    (hsafe : ∀ op ∈ ops, SafeOp op) (w : WindowInst)
    (hw : (runOps initState ops).1.current_window = some w) :
    containsW (runOps initState ops).1.windows w.cls.window_name = true :=
  (regInv_runOps ops initState hsafe regInv_initState).2 w hw

theorem current_window_name_registered_witness :
    containsW (runOps initState
        [.load [⟨true, ⟨0, "A"⟩⟩] false, .change "A"]).1.windows
      (⟨⟨0, "A"⟩⟩ : WindowInst).cls.window_name = true :=
  current_window_name_registered
    [.load [⟨true, ⟨0, "A"⟩⟩] false, .change "A"]
    (by intro op hop
        rcases List.mem_cons.mp hop with h | h
        · subst h; trivial
        · rcases List.mem_cons.mp h with h2 | h2
          · subst h2; trivial
          · exact absurd h2 (List.not_mem_nil op))
    ⟨⟨0, "A"⟩⟩ (by decide)

theorem _get_kw_args_eq_zero (sig : Signature) : _get_kw_args sig = 0 := by
  induction sig with
  | nil => rfl
  | cons p rest ih => simpa [_get_kw_args, _KW_CONSIDER] using ih

theorem _get_pos_args_eq_length (sig : Signature) :
    _get_pos_args sig = sig.length := by
  induction sig with
  | nil => rfl
  | cons p rest ih => simpa [_get_pos_args, _KW_CONSIDER] using ih

/-- C3 describes the intended validation, but the code's keyword check is
dead: `_KW_CONSIDER` is a tuple of strings while `param.kind` is an
`IntEnum` member, so the membership test `param.kind in _KW_CONSIDER` is
false for every parameter, `_get_kw_args` returns 0 on every signature, and
`_get_pos_args` counts every parameter.  Hence assignment of a global hook
fails iff the *total* parameter count differs from the expected arity
(setup: 1, enter: 2, leave: 2): a callable with the right total count but a
keyword-only or `**kwargs` parameter — which the claim, the spec and the
setters' own `TypeError` message ("… keyword argument(s)") say must be
rejected — is accepted and installed, as the `global_on_enter` conjunct
shows at the failing input (a two-parameter callable whose second parameter
is keyword-only). -/
theorem global_hook_kw_check_dead (m : WMState) (sig : Signature) :
    _get_kw_args sig = 0
    ∧ _get_pos_args sig = sig.length
    ∧ set_global_on_enter m [.POSITIONAL_OR_KEYWORD, .KEYWORD_ONLY]
        = ({ m with hasGlobalOnEnter := true }, .ok ())
    ∧ set_global_on_setup m [.VAR_KEYWORD]
        = ({ m with hasGlobalOnSetup := true }, .ok ())
    ∧ (set_global_on_setup m sig = (m, .error .typeError)
        ↔ sig.length ≠ _GLOBAL_ON_SETUP_ARGS)
    ∧ (set_global_on_enter m sig = (m, .error .typeError)
        ↔ sig.length ≠ _GLOBAL_ON_ENTER_ARGS)
    ∧ (set_global_on_leave m sig = (m, .error .typeError)
        ↔ sig.length ≠ _GLOBAL_ON_LEAVE_ARGS) := by
  have hsetup := hookShapeBad_true_iff sig _GLOBAL_ON_SETUP_ARGS
  have henter := hookShapeBad_true_iff sig _GLOBAL_ON_ENTER_ARGS
  have hleave := hookShapeBad_true_iff sig _GLOBAL_ON_LEAVE_ARGS
  rw [_get_kw_args_eq_zero sig] at hsetup henter hleave
  simp only [ne_eq, not_true_eq_false, false_or] at hsetup henter hleave
  refine ⟨_get_kw_args_eq_zero sig, _get_pos_args_eq_length sig,
    ?_, ?_, ?_, ?_, ?_⟩
  · unfold set_global_on_enter
    rw [if_neg (by decide)]
  · unfold set_global_on_setup
    rw [if_neg (by decide)]
  · rw [ne_eq, ← hsetup]
    unfold set_global_on_setup
    split <;> simp_all [Prod.ext_iff]
  · rw [ne_eq, ← henter]
    unfold set_global_on_enter
    split <;> simp_all [Prod.ext_iff]
  · rw [ne_eq, ← hleave]
    unfold set_global_on_leave
    split <;> simp_all [Prod.ext_iff]

/-- C4: when window N is loaded and current, `unload_window(N, force=false)`
raises the actively-running `WindowError` and leaves the whole state (in
particular the registry) unchanged, while `unload_window(N, force=true)`
succeeds, removes N's entry, returns its concrete class, and leaves
`current_window` still pointing at the now-absent window. -/
theorem unload_current_window_guard (m : WMState) (n : String)
    (w : WindowInst) (hl : lookupW m.windows n = some w)
    (hc : m.current_window = some w) (hn : w.cls.window_name = n) :
    unload_window m n false = ⟨m, [], .error (.windowError m.last_window)⟩
    ∧ unload_window m n true =
        ⟨{ m with windows := eraseW m.windows n }, [], .ok w.cls⟩
    ∧ containsW (eraseW m.windows n) n = false
    ∧ (unload_window m n true).state.current_window = some w := by
  refine ⟨?_, ?_, ?_, ?_⟩
  · exact unload_window_guard m n w w hl hc hn.symm
  · exact unload_window_success m n true w hl (Or.inl rfl)
  · simp [containsW_eraseW]
  · rw [unload_window_success m n true w hl (Or.inl rfl)]
    exact hc

theorem unload_current_window_guard_witness :
    unload_window
        ⟨[("A", ⟨⟨0, "A"⟩⟩)], some ⟨⟨0, "A"⟩⟩, none, false, false, false⟩
        "A" false
      = ⟨⟨[("A", ⟨⟨0, "A"⟩⟩)], some ⟨⟨0, "A"⟩⟩, none, false, false, false⟩,
          [], .error (.windowError none)⟩
    ∧ (unload_window
        ⟨[("A", ⟨⟨0, "A"⟩⟩)], some ⟨⟨0, "A"⟩⟩, none, false, false, false⟩
        "A" true).state.current_window = some ⟨⟨0, "A"⟩⟩ :=
  ⟨(unload_current_window_guard _ "A" ⟨⟨0, "A"⟩⟩ (by decide) rfl rfl).1,
    (unload_current_window_guard _ "A" ⟨⟨0, "A"⟩⟩ (by decide) rfl rfl).2.2.2⟩

/-- C5: `change_window(name)` fails exactly when `name` is not a key of the
registry; the raised `WindowError` carries the last-known window
(`last_window`), and on failure the entire manager state — `current_window`,
`last_window` and the `windows` mapping — is unchanged. -/
theorem change_window_fails_iff_absent (m : WMState) (name : String) :
    ((∃ e, (change_window m name).result = .error e)
        ↔ containsW m.windows name = false)
    ∧ (containsW m.windows name = false →
        change_window m name = ⟨m, [], .error (.windowError m.last_window)⟩) := by
  have hlem : containsW m.windows name = false →
      change_window m name
        = ⟨m, [], .error (.windowError m.last_window)⟩ := by
    intro hc
    have hl : lookupW m.windows name = none := by
      rcases h : lookupW m.windows name with _ | w
      · rfl
      · rw [containsW, h] at hc
        cases hc
    exact change_window_notfound m name hl
  refine ⟨⟨?_, ?_⟩, hlem⟩
  · rintro ⟨e, he⟩
    rcases hl : lookupW m.windows name with _ | w
    · simp [containsW, hl]
    · rw [change_window_found m name w hl] at he
      cases he
  · intro hc
    exact ⟨.windowError m.last_window, by rw [hlem hc]⟩

theorem change_window_fails_iff_absent_witness :
    change_window ⟨[], none, none, false, false, false⟩ "X"
      = ⟨⟨[], none, none, false, false, false⟩, [],
          .error (.windowError none)⟩ :=
  (change_window_fails_iff_absent ⟨[], none, none, false, false, false⟩
    "X").2 rfl

/-- C6: under `load` calls without `force` the registry never holds two
entries under one name (its key list stays duplicate-free along any
sequence of such loads), and loading a window type whose name is already a
key always raises `WindowLoadError` and leaves the state — in particular
that entry — unchanged. -/
theorem load_duplicate_rejected (batches : List (List LoadCandidate))
    (m : WMState) (c : LoadCandidate)
    (hsub : c.isWindowSubclass = true)
    (hdup : containsW m.windows c.cls.window_name = true) :
    keysNodup (batches.foldl
        (fun s cands => (load_windows s cands false).state) initState)
    ∧ load_windows m [c] false
        = ⟨m, [], .error (.windowLoadError m.last_window)⟩ := by
  constructor
  · have hfold : ∀ (bs : List (List LoadCandidate)) (s : WMState),
        keysNodup s →
        keysNodup (bs.foldl
          (fun s cands => (load_windows s cands false).state) s) := by
      intro bs
      induction bs with
      | nil => exact fun s hs => hs
      | cons b rest ih =>
          exact fun s hs => ih _ (keysNodup_load_windows b s false hs)
    exact hfold batches initState (by simp [keysNodup, initState])
  · have hone : load_one m false c
        = ⟨m, [], .error (.windowLoadError m.last_window)⟩ := by
      unfold load_one
      simp [hsub, hdup]
    unfold load_windows
    rw [hone]

theorem load_duplicate_rejected_witness :
    keysNodup ([[⟨true, ⟨0, "A"⟩⟩]].foldl
        (fun s cands => (load_windows s cands false).state) initState)
    ∧ load_windows ⟨[("A", ⟨⟨0, "A"⟩⟩)], none, none, false, false, false⟩
        [⟨true, ⟨1, "A"⟩⟩] false
      = ⟨⟨[("A", ⟨⟨0, "A"⟩⟩)], none, none, false, false, false⟩, [],
          .error (.windowLoadError none)⟩ :=
  load_duplicate_rejected [[⟨true, ⟨0, "A"⟩⟩]]
    ⟨[("A", ⟨⟨0, "A"⟩⟩)], none, none, false, false, false⟩
    ⟨true, ⟨1, "A"⟩⟩ rfl (by decide)

/-- C7: when loading the window type W succeeds, the manager instantiates W,
stores the instance in the registry under W's `window_name`, and fires the
global `on_setup` hook (if assigned) followed by the instance's own
`on_setup` — in that order, with the instance's `on_setup` fired exactly
once for the load (the event list contains exactly one `windowSetup`). -/
theorem load_success_setup_order (m : WMState) (c : LoadCandidate)
    (force : Bool) (hsub : c.isWindowSubclass = true)
    (hnew : force = true ∨ containsW m.windows c.cls.window_name = false) :
    load_windows m [c] force =
      ⟨{ m with windows := insertW m.windows c.cls.window_name ⟨c.cls⟩ },
        (if m.hasGlobalOnSetup then [Event.globalSetup ⟨c.cls⟩] else [])
          ++ [Event.windowSetup ⟨c.cls⟩],
        .ok ()⟩
    ∧ lookupW (insertW m.windows c.cls.window_name ⟨c.cls⟩)
        c.cls.window_name = some ⟨c.cls⟩ := by
  refine ⟨load_windows_single m force c hsub hnew, ?_⟩
  simp [lookupW_insertW]

theorem load_success_setup_order_witness :
    load_windows ⟨[], none, none, true, false, false⟩ [⟨true, ⟨0, "A"⟩⟩]
        false
      = ⟨⟨[("A", ⟨⟨0, "A"⟩⟩)], none, none, true, false, false⟩,
          [.globalSetup ⟨⟨0, "A"⟩⟩, .windowSetup ⟨⟨0, "A"⟩⟩], .ok ()⟩ := by
  have h := (load_success_setup_order ⟨[], none, none, true, false, false⟩
    ⟨true, ⟨0, "A"⟩⟩ false rfl (Or.inr rfl)).1
  simpa using h

/-- Modelled from the spec: `reload(name, force)` is the composition of
`unload(name, force)` followed by `load` of the returned type with the same
`force` flag, with no further step. -/
def reload_spec_composition (m : WMState) (name : String) (force : Bool) :
    Res Unit :=
  let r1 := unload_window m name force
  match r1.result with
  | .error e => ⟨r1.state, r1.events, .error e⟩
  | .ok cls =>
      let r2 := load_windows r1.state [⟨true, cls⟩] force
      ⟨r2.state, r1.events ++ r2.events, r2.result⟩

/-- C8: `reload_window(name, force)` behaves exactly as
`unload_window(name, force)` followed by `load` of the same concrete type
with the same force flag — same resulting state, same fired events, same
success/error outcome; it fails without effect when the unload step fails;
and it is not atomic: if the load step failed after a successful unload the
window would be left absent from the registry (in this embedding the load
step after a successful unload cannot fail, since instantiation of an
already-registered class always succeeds). -/
theorem reload_is_unload_then_load (m : WMState) (name : String)
    (force : Bool) (hk : keysConsistent m) :
    ((reload_window m name force).state
        = (reload_spec_composition m name force).state
      ∧ (reload_window m name force).events
        = (reload_spec_composition m name force).events
      ∧ Except.map (fun _ => ()) (reload_window m name force).result
        = (reload_spec_composition m name force).result)
    ∧ (∀ e, (unload_window m name force).result = .error e →
        reload_window m name force = ⟨m, [], .error e⟩)
    ∧ (∀ cls e, (unload_window m name force).result = .ok cls →
        (load_windows (unload_window m name force).state [⟨true, cls⟩]
          force).result = .error e →
        containsW (reload_window m name force).state.windows name
          = false) := by
  rcases hl : lookupW m.windows name with _ | inst
  · have hu := unload_window_notfound m name force hl
    have hr := reload_window_notfound m name force hl
    have hs : reload_spec_composition m name force
        = ⟨m, [], .error (.windowLoadError m.last_window)⟩ := by
      unfold reload_spec_composition
      rw [hu]
    refine ⟨by rw [hr, hs]; exact ⟨rfl, rfl, rfl⟩, ?_, ?_⟩
    · intro e he
      rw [hu] at he
      cases he
      rw [hr]
    · intro cls e hok _
      rw [hu] at hok
      cases hok
  · have hname : inst.cls.window_name = name := hk name inst hl
    by_cases hguard : force = true
      ∨ ∀ cw, m.current_window = some cw → name ≠ cw.cls.window_name
    · have hu := unload_window_success m name force inst hl hguard
      have hr := reload_window_success m name force inst hl hname hguard
      have hnew : containsW (eraseW m.windows name) inst.cls.window_name
          = false := by
        simp [containsW_eraseW, hname]
      have hload := load_windows_single
        { m with windows := eraseW m.windows name } force ⟨true, inst.cls⟩
        rfl (Or.inr hnew)
      have hs : reload_spec_composition m name force =
          ⟨{ m with
              windows := insertW (eraseW m.windows name)
                inst.cls.window_name ⟨inst.cls⟩ },
            (if m.hasGlobalOnSetup
              then [Event.globalSetup ⟨inst.cls⟩] else [])
              ++ [Event.windowSetup ⟨inst.cls⟩],
            .ok ()⟩ := by
        unfold reload_spec_composition
        rw [hu]
        dsimp only
        rw [hload]
        simp
      refine ⟨?_, ?_, ?_⟩
      · rw [hr, hs, hname]
        exact ⟨rfl, rfl, rfl⟩
      · intro e he
        rw [hu] at he
        cases he
      · intro cls e hok herr
        rw [hu] at hok herr
        cases hok
        dsimp only at herr
        rw [hload] at herr
        cases herr
    · push_neg at hguard
      obtain ⟨hf, cw, hcw, hn⟩ := hguard
      have hf0 : force = false := by
        cases force
        · rfl
        · exact absurd rfl hf
      subst hf0
      have hu := unload_window_guard m name inst cw hl hcw hn
      have hr := reload_window_guard m name inst cw hl hcw hn
      have hs : reload_spec_composition m name false
          = ⟨m, [], .error (.windowError m.last_window)⟩ := by
        unfold reload_spec_composition
        rw [hu]
      refine ⟨by rw [hr, hs]; exact ⟨rfl, rfl, rfl⟩, ?_, ?_⟩
      · intro e he
        rw [hu] at he
        cases he
        rw [hr]
      · intro cls e hok _
        rw [hu] at hok
        cases hok

theorem reload_is_unload_then_load_witness :
    reload_window initState "A" false
      = ⟨initState, [], .error (.windowLoadError none)⟩ :=
  (reload_is_unload_then_load initState "A" false
    regInv_initState.1).2.1 (.windowLoadError none) rfl

/-- C9: a successful `change_window` passes an empty previous-window
argument to the global `on_enter` and the entered window's `on_enter`
exactly when no successful `change_window` has happened before in the
manager's lifetime (successful changes, and only they, emit `windowEnter`
events, so "first successful change" = no prior `windowEnter` in the
trace): every enter hook of the call receives a previous window that is
non-empty iff the trace already contains a `windowEnter`; and the call does
fire at least one enter hook. -/
theorem first_change_passes_empty_previous (ops : List Op) (name : String)
    (hok : (change_window (runOps initState ops).1 name).result = .ok ()) :
    enterPrevs (change_window (runOps initState ops).1 name).events ≠ []
    ∧ ∀ p ∈ enterPrevs
          (change_window (runOps initState ops).1 name).events,
        p.isSome = (runOps initState ops).2.any isWindowEnter := by
  rcases hl : lookupW (runOps initState ops).1.windows name with _ | w
  · rw [change_window_notfound _ name hl] at hok
    cases hok
  · have hep := change_window_enterPrevs (runOps initState ops).1 name w hl
    rw [hep]
    have hcur : (runOps initState ops).1.current_window.isSome
        = (runOps initState ops).2.any isWindowEnter := by
      have h2 := runOps_enter_sync ops initState
      simpa [initState] using h2
    constructor
    · split <;> simp
    · intro p hp
      have hpm : p = (runOps initState ops).1.current_window := by
        rcases List.mem_append.mp hp with h | h
        · split at h
          · simpa using h
          · cases h
        · simpa using h
      rw [hpm, hcur]

theorem first_change_passes_empty_previous_witness :
    enterPrevs (change_window
        (runOps initState
          [.load [⟨true, ⟨0, "A"⟩⟩] false, .change "A"]).1 "A").events ≠ []
    ∧ ∀ p ∈ enterPrevs (change_window
          (runOps initState
            [.load [⟨true, ⟨0, "A"⟩⟩] false, .change "A"]).1 "A").events,
        p.isSome = (runOps initState
          [.load [⟨true, ⟨0, "A"⟩⟩] false, .change "A"]).2.any
            isWindowEnter :=
  first_change_passes_empty_previous
    [.load [⟨true, ⟨0, "A"⟩⟩] false, .change "A"] "A" (by decide)

/-- C10: the `states` list of the `Window` base type is class-level storage
shared by all instances: instances are created without an own `states`
attribute, so every instance's attribute lookup reads the one class list;
`add_state` called through any instance appends to that shared list (and the
new state is seen through every other instance), and `remove_state` drops
the first occurrence from that same shared list, the removal being seen
through every instance's view — no instance ever acquires an independent
list (the calling instance is returned unchanged by both methods). -/
theorem window_states_shared (w1 w2 : PyWindowObj) (cls : List Nat)
    (s : Nat) (h1 : w1.ownStates = none) (h2 : w2.ownStates = none) :
    mkWindowObj.ownStates = none
    ∧ statesAttr w1 cls = statesAttr w2 cls
    ∧ (add_state w1 cls s).1 = w1
    ∧ s ∈ statesAttr w2 (add_state w1 cls s).2
    ∧ (∀ w1' cs, remove_state w1 cls s = some (w1', cs) →
        w1' = w1 ∧ statesAttr w1' cs = cls.erase s
          ∧ statesAttr w2 cs = cls.erase s) := by
  refine ⟨rfl, ?_, rfl, ?_, ?_⟩
  · simp [statesAttr, h1, h2]
  · simp [statesAttr, add_state, h2]
  · intro w1' cs h
    unfold remove_state at h
    split at h
    · cases h
      exact ⟨rfl, by simp [statesAttr, h1], by simp [statesAttr, h2]⟩
    · cases h

theorem window_states_shared_witness :
    5 ∈ statesAttr mkWindowObj (add_state mkWindowObj [] 5).2 :=
  (window_states_shared mkWindowObj mkWindowObj [] 5 rfl rfl).2.2.2.1

end Mineral
